import Mathlib

/-!
Shallow embedding of the dota-matchups-CLI counter-computation core:
the OpenDota API classifier in `counter_parsing.py` (`ODAPIParser`),
the Dotabuff document extractor (`DBSCRAPEParser`), the unimplemented
OpenDota scrape variant (`ODSCRAPEParser`), and the name/id lookup
collaborator in `dota_constants.py` (`HeroTranslator`).

Scores are modelled as exact rationals; `Option` results model Python
functions that can raise an uncaught exception (`none` = runtime fault),
and an explicit `Bool` flag models the console error message printed on
a parse failure that the code converts into an empty list.
-/

namespace DotaMatchups

/-- Winrate threshold to be considered a counter to the hero:
`COUNTER_THRESHOLD = 0.40` in `counter_parsing.py`, the exact rational
40/100 (written with `mkRat` so that it evaluates by kernel reduction;
`COUNTER_THRESHOLD_eq_div` below identifies it with `40 / 100`). -/
def COUNTER_THRESHOLD : ℚ := mkRat 40 100

/-- Winrate threshold to be considered countered by the hero:
`COUNTERED_THRESHOLD = 0.60` in `counter_parsing.py`, the exact
rational 60/100. -/
def COUNTERED_THRESHOLD : ℚ := mkRat 60 100

/-- Minimum number of games played to be considered a valid statistic:
`MIN_GAMES = 10` in `counter_parsing.py`. -/
def MIN_GAMES : Nat := 10

/-- One element of the JSON array returned by the OpenDota matchups API,
as consumed by `ODAPIParser._init_counters`: fields `hero_id`,
`games_played`, `wins`. -/
structure Matchup where
  hero_id : Int
  games_played : Nat
  wins : Nat
deriving DecidableEq, Repr

/-- The expression `matchup["wins"] / matchup["games_played"]` of
`ODAPIParser._init_counters`, as an exact rational (`winrate_eq_div`
below identifies it with the quotient of casts). -/
def winrate (m : Matchup) : ℚ := mkRat m.wins m.games_played

/-- The loop body of `ODAPIParser._init_counters` (lines 168-176):
walks the matchups in order, computing `winrate` for every record
before the `MIN_GAMES` check, bucketing records that pass the sample
filter into the countered list (`winrate >= COUNTERED_THRESHOLD`) or
the counters list (`elif winrate <= COUNTER_THRESHOLD`).  The division
is performed before any guard, so `games_played = 0` raises
`ZeroDivisionError`, modelled by `none`.  Result: `(countered_heroes,
counter_heroes)` in append (input) order, before sorting. -/
def odBucket : List Matchup → Option (List (Int × ℚ) × List (Int × ℚ))
  | [] => some ([], [])
  | m :: rest =>
    if m.games_played = 0 then
      none
    else
      match odBucket rest with
      | none => none
      | some (cd, cs) =>
        if MIN_GAMES ≤ m.games_played then
          if COUNTERED_THRESHOLD ≤ winrate m then
            some ((m.hero_id, winrate m) :: cd, cs)
          else if winrate m ≤ COUNTER_THRESHOLD then
            some (cd, (m.hero_id, winrate m) :: cs)
          else
            some (cd, cs)
        else
          some (cd, cs)

/-- Sort key relation for `counter_heroes.sort(key=lambda p: p[1])`:
ascending by score. -/
def scoreLE (a b : Int × ℚ) : Prop := a.2 ≤ b.2

/-- Sort key relation for `countered_heroes.sort(key=lambda p: p[1],
reverse=True)`: descending by score. -/
def scoreGE (a b : Int × ℚ) : Prop := b.2 ≤ a.2

instance : DecidableRel scoreLE := fun a b => inferInstanceAs (Decidable (a.2 ≤ b.2))

instance : DecidableRel scoreGE := fun a b => inferInstanceAs (Decidable (b.2 ≤ a.2))

instance : IsTotal (Int × ℚ) scoreLE := ⟨fun a b => le_total a.2 b.2⟩

instance : IsTrans (Int × ℚ) scoreLE := ⟨fun _ _ _ h1 h2 => le_trans h1 h2⟩

instance : IsTotal (Int × ℚ) scoreGE := ⟨fun a b => le_total b.2 a.2⟩

instance : IsTrans (Int × ℚ) scoreGE := ⟨fun _ _ _ h1 h2 => le_trans h2 h1⟩

/-- Full `ODAPIParser._init_counters` (lines 164-182): bucket the
matchups, then sort `countered_heroes` by score descending (a stable
sort, as the Python list sort method is) and `counter_heroes` by score
ascending.  `none` models the `ZeroDivisionError` raised when some
record has `games_played = 0`.  Result: `(countered, counters)`, the
two member lists the parser stores. -/
def odInitCounters (matchups_data : List Matchup) :
    Option (List (Int × ℚ) × List (Int × ℚ)) :=
  match odBucket matchups_data with
  | none => none
  | some (countered_heroes, counter_heroes) =>
    some (List.insertionSort scoreGE countered_heroes,
          List.insertionSort scoreLE counter_heroes)

/-- One entry of the static `heroes.json` table: a string-encoded id key
mapping to an object with an `id` field and a `localized_name` field
(`dota_constants.py`, `HeroTranslator.__init__`). -/
structure HeroEntry where
  id : Int
  localized_name : String
deriving DecidableEq, Repr

/-- Lookup in an association-list model of a Python dict: first match. -/
def dictLookup {κ β : Type} [DecidableEq κ] : List (κ × β) → κ → Option β
  | [], _ => none
  | p :: rest, k => if p.1 = k then some p.2 else dictLookup rest k

/-- Membership test `k in d` on the dict model. -/
def dictContains {κ β : Type} [DecidableEq κ] (d : List (κ × β)) (k : κ) : Bool :=
  (dictLookup d k).isSome

/-- Assignment `d[k] = v` on the dict model: replaces in place when the
key exists (Python dicts keep the original insertion position), appends
otherwise. -/
def dictInsert {κ β : Type} [DecidableEq κ] (d : List (κ × β)) (k : κ) (v : β) :
    List (κ × β) :=
  if dictContains d k then
    d.map (fun p => if p.1 = k then (k, v) else p)
  else
    d ++ [(k, v)]

/-- Member data of `HeroTranslator`: `_name_to_id_dict` (lower case name
to int id) and `_id_to_name_dict` (int id to proper name). -/
structure HeroTranslator where
  name_to_id_dict : List (String × Int)
  id_to_name_dict : List (Int × String)
deriving DecidableEq, Repr

/-- Python `str.lower()` on the ASCII hero names: lower each character
(character-wise map, implemented directly so that it evaluates by
kernel reduction). -/
def strToLower (s : String) : String := String.mk (s.toList.map Char.toLower)

/-- Constructor `HeroTranslator.__init__` on a successfully parsed
table: forms `_id_to_name_dict` from the entries in file order, then
forms `_name_to_id_dict` by reversing its pairs with the name lowered. -/
def mkTranslator (table : List HeroEntry) : HeroTranslator :=
  let idToName := table.foldl (fun d e => dictInsert d e.id e.localized_name) []
  let nameToId := idToName.foldl (fun d p => dictInsert d (strToLower p.2) p.1) []
  ⟨nameToId, idToName⟩

/-- Method `HeroTranslator.name_to_id` (`dota_constants.py` lines
44-49): tests membership of the raw `hero_name` in the dict, and on
success looks up `hero_name.lower()`. -/
def name_to_id (t : HeroTranslator) (hero_name : String) : Option Int :=
  if dictContains t.name_to_id_dict hero_name then
    dictLookup t.name_to_id_dict (strToLower hero_name)
  else
    none

/-- Method `HeroTranslator.id_to_name` (`dota_constants.py` lines
52-57). -/
def id_to_name (t : HeroTranslator) (hero_id : Int) : Option String :=
  if dictContains t.id_to_name_dict hero_id then
    dictLookup t.id_to_name_dict hero_id
  else
    none

/-- Accumulator `digitsToNat` for decimal digit strings. -/
def digitsToNat (l : List Char) : Nat :=
  l.foldl (fun acc c => acc * 10 + (c.toNat - 48)) 0

/-- Split a character list at every dot, keeping empty pieces. -/
def splitDot : List Char → List (List Char)
  | [] => [[]]
  | c :: rest =>
    if c = Char.ofNat 46 then
      [] :: splitDot rest
    else
      match splitDot rest with
      | [] => [[c]]
      | piece :: pieces => (c :: piece) :: pieces

/-- Python builtin `float(...)` restricted to the plain unsigned decimal
literals the Dotabuff score cells carry (digits with at most one dot):
the value of `w.f` is the integer reading of the concatenated digits
over `10 ^ (number of fractional digits)`.  `none` models the
`ValueError` raised on any other string. -/
def parseFloat (s : String) : Option ℚ :=
  match splitDot s.toList with
  | [w] =>
    if w ≠ [] ∧ w.all Char.isDigit then
      some (mkRat (digitsToNat w) 1)
    else
      none
  | [w, f] =>
    if (w ≠ [] ∨ f ≠ []) ∧ w.all Char.isDigit ∧ f.all Char.isDigit then
      some (mkRat (digitsToNat (w ++ f)) (10 ^ f.length))
    else
      none
  | _ => none

/-- Python slice `s[:-1]`: the string without its final character. -/
def stripLast (s : String) : String := String.mk s.toList.dropLast

/-- Division of a parsed percentage by 100, as performed at
`hero_score = float(...) / 100` (written on the numerator and
denominator so that it evaluates by kernel reduction;
`pctToScore_eq_div` below identifies it with `x / 100`). -/
def pctToScore (x : ℚ) : ℚ := mkRat x.num (x.den * 100)

/-- Summary of one loop iteration of `_create_matchups_list` in
`DBSCRAPEParser._get_matchups`: a row is its list of `td` cell texts;
a data row with at least three cells yields the pair of
`name_to_id` applied to the second cell and the text of the third cell with
the trailing character stripped, parsed as a float and divided by 100.
`none` when the row is short or its score text does not parse. -/
def rowRecord (trans : HeroTranslator) (row : List String) : Option (Option Int × ℚ) :=
  match row with
  | _ :: c1 :: c2 :: _ =>
    match parseFloat (stripLast c2) with
    | none => none
    | some x => some (name_to_id trans c1, pctToScore x)
  | _ => none

/-- Loop of `_create_matchups_list` over the data rows (`tags[1:]`,
lines 200-216): appends a record per row in order; a row with fewer
than three cells prints an error and returns `[]` immediately,
discarding every record accumulated so far (modelled by the `Bool`
flag, `true` = error message printed); an unparsable score cell raises
`ValueError`, modelled by `none`. -/
def parseRows (trans : HeroTranslator) : List (List String) → Option (List (Option Int × ℚ) × Bool)
  | [] => some ([], false)
  | row :: rest =>
    match row with
    | _ :: c1 :: c2 :: _ =>
      match parseFloat (stripLast c2) with
      | none => none
      | some x =>
        match parseRows trans rest with
        | none => none
        | some (l, e) =>
          if e then some ([], true)
          else some ((name_to_id trans c1, pctToScore x) :: l, false)
    | _ => some ([], true)

/-- Helper `_create_matchups_list(tags)`: skips the first row (header)
and parses the rest. -/
def createMatchupsList (trans : HeroTranslator) (tags : List (List String)) :
    Option (List (Option Int × ℚ) × Bool) :=
  parseRows trans (tags.drop 1)

/-- Body of `DBSCRAPEParser._get_matchups` after the page is fetched
(lines 228-242): a payload is the list of `counter-outline` sections,
each a list of `tr` rows, each a list of `td` cell texts.  Fewer than
two sections prints an error and returns `([], [])`; otherwise section
0 is the counter section and section 1 the countered section, the
countered section is parsed first, and the pair
`(countered_list, counter_list)` is returned.  The `Bool` collects
whether any error message was printed; `none` models an uncaught
exception inside `_create_matchups_list`. -/
def dbGetMatchups (trans : HeroTranslator) (matchup_sections : List (List (List String))) :
    Option ((List (Option Int × ℚ) × List (Option Int × ℚ)) × Bool) :=
  match matchup_sections with
  | counter_section :: countered_section :: _ =>
    match createMatchupsList trans countered_section with
    | none => none
    | some (countered_list, e1) =>
      match createMatchupsList trans counter_section with
      | none => none
      | some (counter_list, e2) => some ((countered_list, counter_list), e1 || e2)
  | _ => some (([], []), true)

/-- Composition `DBSCRAPEParser.compute_counters`: `_get_matchups`
followed by `_init_counters` (which unpacks `self.countered,
self.counters = matchups_data`), returning `(self.counters,
self.countered)`. -/
def dbComputeCounters (trans : HeroTranslator) (matchup_sections : List (List (List String))) :
    Option ((List (Option Int × ℚ) × List (Option Int × ℚ)) × Bool) :=
  match dbGetMatchups trans matchup_sections with
  | none => none
  | some ((countered_list, counter_list), e) => some ((counter_list, countered_list), e)

/-- Member lists established by `CounterParser.__init__`:
`self.counters = []` and `self.countered = []`. -/
structure ParserState where
  counters : List (Int × ℚ)
  countered : List (Int × ℚ)
deriving DecidableEq, Repr

/-- Fresh parser state from `CounterParser.__init__`, as built by
`CounterPrinter._update_parser` for every mode change. -/
def initParserState : ParserState := ⟨[], []⟩

/-- Stub `ODSCRAPEParser._get_matchups` (line 263-264): returns `None`. -/
def odscrapeGetMatchups (_hero_id : Int) : Option (List Matchup) := none

/-- Stub `ODSCRAPEParser._init_counters` (line 268-269): plain `return`,
leaving the member lists untouched. -/
def odscrapeInitCounters (st : ParserState) (_matchups_data : Option (List Matchup)) :
    ParserState := st

/-- Inherited `CounterParser.compute_counters` as executed by
`ODSCRAPEParser`: obtains the (absent) matchups, runs the no-op
`_init_counters`, and returns `(self.counters, self.countered)`. -/
def odscrapeComputeCounters (st : ParserState) (hero_id : Int) :
    (List (Int × ℚ) × List (Int × ℚ)) × ParserState :=
  let st2 := odscrapeInitCounters st (odscrapeGetMatchups hero_id)
  ((st2.counters, st2.countered), st2)

/-- Bridging lemma: the counter threshold is the rational `40 / 100`,
the exact value of the source literal `0.40`. -/
theorem COUNTER_THRESHOLD_eq_div : COUNTER_THRESHOLD = 40 / 100 := by
  rw [COUNTER_THRESHOLD, Rat.mkRat_eq_div]
  norm_num

/-- Bridging lemma: the countered threshold is the rational `60 / 100`,
the exact value of the source literal `0.60`. -/
theorem COUNTERED_THRESHOLD_eq_div : COUNTERED_THRESHOLD = 60 / 100 := by
  rw [COUNTERED_THRESHOLD, Rat.mkRat_eq_div]
  norm_num

/-- Bridging lemma: `winrate` is the true quotient
`wins / games_played`. -/
theorem winrate_eq_div (m : Matchup) :
    winrate m = (m.wins : ℚ) / (m.games_played : ℚ) := by
  rw [winrate, Rat.mkRat_eq_div]
  norm_num

/-- Bridging lemma: `pctToScore` is the true quotient `x / 100` of the
source line `hero_score = float(score_data[0][:-1]) / 100`. -/
theorem pctToScore_eq_div (x : ℚ) : pctToScore x = x / 100 := by
  rw [pctToScore, Rat.mkRat_eq_div]
  push_cast
  rw [← div_div]
  congr 1
  exact_mod_cast Rat.num_div_den x

/-- The two cutoffs do not overlap: `0.40 < 0.60`. -/
theorem thresholds_lt : COUNTER_THRESHOLD < COUNTERED_THRESHOLD := by decide

/-- Soundness of the bucketing loop: every pair in either output list
arises from an input record that passed the sample-size filter and the
corresponding threshold test. -/
theorem odBucket_sound {data : List Matchup} {cd cs : List (Int × ℚ)}
    (h : odBucket data = some (cd, cs)) :
    (∀ p ∈ cd, ∃ m, m ∈ data ∧ MIN_GAMES ≤ m.games_played ∧
        COUNTERED_THRESHOLD ≤ winrate m ∧ p = (m.hero_id, winrate m)) ∧
    (∀ p ∈ cs, ∃ m, m ∈ data ∧ MIN_GAMES ≤ m.games_played ∧
        winrate m ≤ COUNTER_THRESHOLD ∧ p = (m.hero_id, winrate m)) := by
  induction data generalizing cd cs with
  | nil =>
    simp only [odBucket, Option.some.injEq, Prod.mk.injEq] at h
    obtain ⟨h1, h2⟩ := h
    subst h1; subst h2
    simp
  | cons m rest ih =>
    simp only [odBucket] at h
    split at h
    · exact absurd h (by simp)
    rename_i hz
    split at h
    · exact absurd h (by simp)
    rename_i cd0 cs0 hre
    obtain ⟨hcd0, hcs0⟩ := ih hre
    have keep :
        ∀ (l1 l2 : List (Int × ℚ)),
          (∀ p ∈ l1, ∃ m1, m1 ∈ rest ∧ MIN_GAMES ≤ m1.games_played ∧
            COUNTERED_THRESHOLD ≤ winrate m1 ∧ p = (m1.hero_id, winrate m1)) →
          (∀ p ∈ l2, ∃ m1, m1 ∈ rest ∧ MIN_GAMES ≤ m1.games_played ∧
            winrate m1 ≤ COUNTER_THRESHOLD ∧ p = (m1.hero_id, winrate m1)) →
          (∀ p ∈ l1, ∃ m1, m1 ∈ m :: rest ∧ MIN_GAMES ≤ m1.games_played ∧
            COUNTERED_THRESHOLD ≤ winrate m1 ∧ p = (m1.hero_id, winrate m1)) ∧
          (∀ p ∈ l2, ∃ m1, m1 ∈ m :: rest ∧ MIN_GAMES ≤ m1.games_played ∧
            winrate m1 ≤ COUNTER_THRESHOLD ∧ p = (m1.hero_id, winrate m1)) := by
      intro l1 l2 a1 a2
      constructor
      · intro p hp
        obtain ⟨m1, hm1, hr⟩ := a1 p hp
        exact ⟨m1, List.mem_cons_of_mem _ hm1, hr⟩
      · intro p hp
        obtain ⟨m1, hm1, hr⟩ := a2 p hp
        exact ⟨m1, List.mem_cons_of_mem _ hm1, hr⟩
    split at h
    · rename_i hmin
      split at h
      · rename_i hge
        simp only [Option.some.injEq, Prod.mk.injEq] at h
        obtain ⟨h1, h2⟩ := h
        subst h1; subst h2
        obtain ⟨k1, k2⟩ := keep cd0 cs0 hcd0 hcs0
        refine ⟨?_, k2⟩
        intro p hp
        rcases List.mem_cons.mp hp with hp | hp
        · exact ⟨m, List.mem_cons_self .., hmin, hge, hp⟩
        · exact k1 p hp
      · rename_i hge
        split at h
        · rename_i hle
          simp only [Option.some.injEq, Prod.mk.injEq] at h
          obtain ⟨h1, h2⟩ := h
          subst h1; subst h2
          obtain ⟨k1, k2⟩ := keep cd0 cs0 hcd0 hcs0
          refine ⟨k1, ?_⟩
          intro p hp
          rcases List.mem_cons.mp hp with hp | hp
          · exact ⟨m, List.mem_cons_self .., hmin, hle, hp⟩
          · exact k2 p hp
        · simp only [Option.some.injEq, Prod.mk.injEq] at h
          obtain ⟨h1, h2⟩ := h
          subst h1; subst h2
          exact keep cd0 cs0 hcd0 hcs0
    · simp only [Option.some.injEq, Prod.mk.injEq] at h
      obtain ⟨h1, h2⟩ := h
      subst h1; subst h2
      exact keep cd0 cs0 hcd0 hcs0

/-- Completeness of the bucketing loop: an input record that passes the
sample-size filter lands in the list its winrate selects. -/
theorem odBucket_complete {data : List Matchup} {cd cs : List (Int × ℚ)}
    (h : odBucket data = some (cd, cs)) {m : Matchup} (hm : m ∈ data)
    (hmin : MIN_GAMES ≤ m.games_played) :
    (COUNTERED_THRESHOLD ≤ winrate m → (m.hero_id, winrate m) ∈ cd) ∧
    (winrate m ≤ COUNTER_THRESHOLD → (m.hero_id, winrate m) ∈ cs) := by
  induction data generalizing cd cs with
  | nil => simp at hm
  | cons m0 rest ih =>
    simp only [odBucket] at h
    split at h
    · exact absurd h (by simp)
    rename_i hz
    split at h
    · exact absurd h (by simp)
    rename_i cd0 cs0 hre
    rcases List.mem_cons.mp hm with hme | hme
    · subst hme
      split at h
      · rename_i hmin0
        split at h
        · rename_i hge
          simp only [Option.some.injEq, Prod.mk.injEq] at h
          obtain ⟨h1, h2⟩ := h
          subst h1; subst h2
          exact ⟨fun _ => List.mem_cons_self .., fun hle =>
            absurd (le_trans hge hle) (not_le.mpr thresholds_lt)⟩
        · rename_i hge
          split at h
          · rename_i hle
            simp only [Option.some.injEq, Prod.mk.injEq] at h
            obtain ⟨h1, h2⟩ := h
            subst h1; subst h2
            exact ⟨fun hge2 => absurd hge2 hge, fun _ => List.mem_cons_self ..⟩
          · rename_i hle
            exact ⟨fun hge2 => absurd hge2 hge, fun hle2 => absurd hle2 hle⟩
      · rename_i hmin0
        exact absurd hmin hmin0
    · have ihr := ih hre hme
      split at h
      · split at h
        · simp only [Option.some.injEq, Prod.mk.injEq] at h
          obtain ⟨h1, h2⟩ := h
          subst h1; subst h2
          exact ⟨fun hge => List.mem_cons_of_mem _ (ihr.1 hge), ihr.2⟩
        · split at h
          · simp only [Option.some.injEq, Prod.mk.injEq] at h
            obtain ⟨h1, h2⟩ := h
            subst h1; subst h2
            exact ⟨ihr.1, fun hle => List.mem_cons_of_mem _ (ihr.2 hle)⟩
          · simp only [Option.some.injEq, Prod.mk.injEq] at h
            obtain ⟨h1, h2⟩ := h
            subst h1; subst h2
            exact ihr
      · simp only [Option.some.injEq, Prod.mk.injEq] at h
        obtain ⟨h1, h2⟩ := h
        subst h1; subst h2
        exact ihr

/-- Removing the records that fail the sample-size filter from the
input does not change a successful bucketing result. -/
theorem odBucket_filter_min {data : List Matchup} {pr : List (Int × ℚ) × List (Int × ℚ)}
    (h : odBucket data = some pr) :
    odBucket (data.filter (fun m => MIN_GAMES ≤ m.games_played)) = some pr := by
  induction data generalizing pr with
  | nil => exact h
  | cons m rest ih =>
    simp only [odBucket] at h
    split at h
    · exact absurd h (by simp)
    rename_i hz
    split at h
    · exact absurd h (by simp)
    rename_i cd0 cs0 hre
    by_cases hmin : MIN_GAMES ≤ m.games_played
    · rw [if_pos hmin] at h
      rw [List.filter_cons_of_pos (by simpa using hmin)]
      simp only [odBucket, if_neg hz, ih hre, if_pos hmin]
      exact h
    · rw [if_neg hmin] at h
      rw [List.filter_cons_of_neg (by simpa using hmin)]
      rw [ih hre]
      exact h

/-- Inserting an element of the key class `q` into a list puts it in
front of the class, provided the order relation holds on equal keys:
the elements skipped by `orderedInsert` lie outside the class. -/
theorem filter_orderedInsert_pos {α : Type} (r : α → α → Prop) [DecidableRel r]
    (k : α → ℚ) (q : ℚ) (hr : ∀ a b, k a = k b → r a b) (x : α) (hx : k x = q) :
    ∀ s : List α, (List.orderedInsert r x s).filter (fun a => k a = q) =
      x :: s.filter (fun a => k a = q)
  | [] => by simp [hx]
  | y :: ys => by
    by_cases hxy : r x y
    · simp [List.orderedInsert, hxy, List.filter_cons, hx]
    · have hky : ¬(k y = q) := fun hq => hxy (hr x y (by rw [hx, hq]))
      simp only [List.orderedInsert, if_neg hxy, List.filter_cons, decide_eq_true_eq,
        if_neg hky, filter_orderedInsert_pos r k q hr x hx ys]

/-- Inserting an element outside the key class `q` leaves the class
subsequence unchanged. -/
theorem filter_orderedInsert_neg {α : Type} (r : α → α → Prop) [DecidableRel r]
    (k : α → ℚ) (q : ℚ) (x : α) (hx : ¬(k x = q)) :
    ∀ s : List α, (List.orderedInsert r x s).filter (fun a => k a = q) =
      s.filter (fun a => k a = q)
  | [] => by simp [hx]
  | y :: ys => by
    by_cases hxy : r x y
    · simp [List.orderedInsert, hxy, hx]
    · simp only [List.orderedInsert, if_neg hxy, List.filter_cons,
        filter_orderedInsert_neg r k q x hx ys]

/-- Stability of `insertionSort` with respect to a rational key: the
subsequence of any key class is preserved, provided the order relation
holds on equal keys.  This is the classical characterisation of a
stable sort, and the Python list sort method guarantees it. -/
theorem filter_insertionSort {α : Type} (r : α → α → Prop) [DecidableRel r]
    (k : α → ℚ) (q : ℚ) (hr : ∀ a b, k a = k b → r a b) :
    ∀ l : List α, (List.insertionSort r l).filter (fun a => k a = q) =
      l.filter (fun a => k a = q)
  | [] => rfl
  | x :: l => by
    by_cases hx : k x = q
    · rw [List.insertionSort, filter_orderedInsert_pos r k q hr x hx,
        filter_insertionSort r k q hr l]
      simp [hx]
    · rw [List.insertionSort, filter_orderedInsert_neg r k q x hx,
        filter_insertionSort r k q hr l]
      simp [hx]

/-- On equal scores the descending relation holds, so the descending
sort of the countered list is stable. -/
theorem scoreGE_of_eq : ∀ a b : Int × ℚ, a.2 = b.2 → scoreGE a b :=
  fun _ _ h => le_of_eq h.symm

/-- On equal scores the ascending relation holds, so the ascending sort
of the counters list is stable. -/
theorem scoreLE_of_eq : ∀ a b : Int × ℚ, a.2 = b.2 → scoreLE a b :=
  fun _ _ h => le_of_eq h

/-- Rows that each produce a record make `parseRows` succeed with no
error message, returning exactly one record per row, in order. -/
theorem parseRows_ok (trans : HeroTranslator) :
    ∀ rows : List (List String), (∀ r ∈ rows, (rowRecord trans r).isSome = true) →
      parseRows trans rows = some (rows.filterMap (rowRecord trans), false)
  | [], _ => rfl
  | row :: rest, h => by
    have hrow : (rowRecord trans row).isSome = true := h row (List.mem_cons_self ..)
    have hrest := parseRows_ok trans rest (fun r hr => h r (List.mem_cons_of_mem _ hr))
    match row with
    | [] => simp [rowRecord] at hrow
    | [c0] => simp [rowRecord] at hrow
    | [c0, c1] => simp [rowRecord] at hrow
    | c0 :: c1 :: c2 :: rs =>
      match hpf : parseFloat (stripLast c2) with
      | none => rw [rowRecord, hpf] at hrow; simp at hrow
      | some x =>
        simp only [parseRows, hpf, hrest, List.filterMap_cons, rowRecord, Bool.false_eq_true,
          if_false]

/-- Hitting a row with fewer than three cells makes the loop return the
empty list with the error message printed, no matter how many
well-formed rows were already accumulated and what follows. -/
theorem parseRows_short (trans : HeroTranslator) {bad : List String}
    (hbad : bad.length < 3) (post : List (List String)) :
    ∀ pre : List (List String), (∀ r ∈ pre, (rowRecord trans r).isSome = true) →
      parseRows trans (pre ++ bad :: post) = some ([], true)
  | [], _ => by
    match bad, hbad with
    | [], _ => rfl
    | [c0], _ => rfl
    | [c0, c1], _ => rfl
    | c0 :: c1 :: c2 :: rs, hbad => exact absurd hbad (by simp)
  | row :: pre, h => by
    have hrow : (rowRecord trans row).isSome = true := h row (List.mem_cons_self ..)
    have hrest := parseRows_short trans hbad post pre
      (fun r hr => h r (List.mem_cons_of_mem _ hr))
    match row with
    | [] => simp [rowRecord] at hrow
    | [c0] => simp [rowRecord] at hrow
    | [c0, c1] => simp [rowRecord] at hrow
    | c0 :: c1 :: c2 :: rs =>
      match hpf : parseFloat (stripLast c2) with
      | none => rw [rowRecord, hpf] at hrow; simp at hrow
      | some x =>
        simp [List.cons_append, parseRows, hpf, List.append_eq, hrest]

/-- A successful, error-free parse yields exactly one record per row. -/
theorem parseRows_length (trans : HeroTranslator) :
    ∀ {rows : List (List String)} {out : List (Option Int × ℚ)},
      parseRows trans rows = some (out, false) → out.length = rows.length := by
  intro rows
  induction rows with
  | nil =>
    intro out h
    simp only [parseRows, Option.some.injEq, Prod.mk.injEq] at h
    rw [← h.1]
    rfl
  | cons row rest ih =>
    intro out h
    simp only [parseRows] at h
    split at h
    · split at h
      · exact absurd h (by simp)
      · split at h
        · exact absurd h (by simp)
        rename_i l e hre
        split at h
        · exact absurd h (by simp)
        rename_i he
        simp only [Option.some.injEq, Prod.mk.injEq] at h
        obtain ⟨h1, _⟩ := h
        rw [← h1]
        have he2 : e = false := by
          cases e
          · rfl
          · exact absurd rfl he
        subst he2
        simp [ih hre]
    · exact absurd h (by simp)

/-- C1: for every list of API-variant matchup records that survive the
sample-size filter, the classifier places a record in the countered
list iff its score is at least `0.60`, in the counters list iff its
score is at most `0.40`, and in neither list when its score lies
strictly between the cutoffs (both cutoffs inclusive for their bucket,
the open neutral band excluded from both outputs). -/
theorem C1_threshold_classification (data : List Matchup)
    (countered counters : List (Int × ℚ)) (p : Int × ℚ) (m : Matchup)
    (h : odInitCounters data = some (countered, counters)) :
    (p ∈ countered → COUNTERED_THRESHOLD ≤ p.2) ∧
    (p ∈ counters → p.2 ≤ COUNTER_THRESHOLD) ∧
    (COUNTER_THRESHOLD < p.2 → p.2 < COUNTERED_THRESHOLD →
      p ∉ countered ∧ p ∉ counters) ∧
    (m ∈ data → MIN_GAMES ≤ m.games_played →
      (COUNTERED_THRESHOLD ≤ winrate m → (m.hero_id, winrate m) ∈ countered) ∧
      (winrate m ≤ COUNTER_THRESHOLD → (m.hero_id, winrate m) ∈ counters)) := by
  rw [odInitCounters] at h
  split at h
  · exact absurd h (by simp)
  rename_i cd0 cs0 hb
  simp only [Option.some.injEq, Prod.mk.injEq] at h
  obtain ⟨h1, h2⟩ := h
  subst h1; subst h2
  have hsound := odBucket_sound hb
  refine ⟨?_, ?_, ?_, ?_⟩
  · intro hp
    obtain ⟨m1, _, _, hge, hpe⟩ := hsound.1 p ((List.mem_insertionSort _).mp hp)
    rw [hpe]
    exact hge
  · intro hp
    obtain ⟨m1, _, _, hle, hpe⟩ := hsound.2 p ((List.mem_insertionSort _).mp hp)
    rw [hpe]
    exact hle
  · intro hlt1 hlt2
    constructor
    · intro hp
      obtain ⟨m1, _, _, hge, hpe⟩ := hsound.1 p ((List.mem_insertionSort _).mp hp)
      rw [hpe] at hlt2
      exact absurd hge (not_le.mpr hlt2)
    · intro hp
      obtain ⟨m1, _, _, hle, hpe⟩ := hsound.2 p ((List.mem_insertionSort _).mp hp)
      rw [hpe] at hlt1
      exact absurd hle (not_le.mpr hlt1)
  · intro hm hmin
    have hc := odBucket_complete hb hm hmin
    exact ⟨fun hge => (List.mem_insertionSort _).mpr (hc.1 hge),
           fun hle => (List.mem_insertionSort _).mpr (hc.2 hle)⟩

/-- Witness for C1 at a concrete input: records with winrates 13/20,
8/20 and 10/20 classify into the countered list, the counters list and
neither, respectively. -/
theorem C1_threshold_classification_witness :
    COUNTERED_THRESHOLD ≤ mkRat 13 20 ∧ mkRat 2 5 ≤ COUNTER_THRESHOLD ∧
    ((1 : Int), winrate (Matchup.mk 1 20 13)) ∈ [((1 : Int), mkRat 13 20)] :=
  have h := C1_threshold_classification
    [Matchup.mk 1 20 13, Matchup.mk 2 20 8, Matchup.mk 3 20 10]
    [((1 : Int), mkRat 13 20)] [((2 : Int), mkRat 2 5)]
    ((1 : Int), mkRat 13 20) (Matchup.mk 1 20 13) (by decide)
  have h2 := C1_threshold_classification
    [Matchup.mk 1 20 13, Matchup.mk 2 20 8, Matchup.mk 3 20 10]
    [((1 : Int), mkRat 13 20)] [((2 : Int), mkRat 2 5)]
    ((2 : Int), mkRat 2 5) (Matchup.mk 2 20 8) (by decide)
  ⟨h.1 (by decide), h2.2.1 (by decide), (h.2.2.2 (by decide) (by decide)).1 (by decide)⟩

/-- C2: the spec requires a typed `SchemaError` with the division guard
checked before dividing, but `ODAPIParser._init_counters` divides at
line 169 before the only guard it has (the `MIN_GAMES` check at line
172), so a record with `games_played = 0` raises an uncaught
`ZeroDivisionError` (modelled by `none`) instead of a typed failure. -/
theorem C2_zero_games_runtime_fault :
    odInitCounters [Matchup.mk 2 0 0] = none := by decide

/-- C3: removing every record whose declared sample size is below
`MIN_GAMES` from the input leaves a successful classification result
unchanged (the sub-threshold records are excluded regardless of score),
while the document-variant rows, which carry no sample size, are never
removed: an error-free parse returns exactly one record per data row. -/
theorem C3_sample_size_filter (data : List Matchup)
    (res : List (Int × ℚ) × List (Int × ℚ))
    (trans : HeroTranslator) (rows : List (List String)) (out : List (Option Int × ℚ))
    (hOD : odInitCounters data = some res)
    (hDB : parseRows trans rows = some (out, false)) :
    odInitCounters (data.filter (fun m => MIN_GAMES ≤ m.games_played)) = some res ∧
    out.length = rows.length := by
  refine ⟨?_, parseRows_length trans hDB⟩
  rw [odInitCounters] at hOD
  split at hOD
  · exact absurd hOD (by simp)
  rename_i cd0 cs0 hb
  rw [odInitCounters, odBucket_filter_min hb]
  exact hOD

/-- Witness for C3: a record with 5 games and a perfect score is
excluded, and a three-cell document row with an unresolved name still
produces its one record. -/
theorem C3_sample_size_filter_witness :
    odInitCounters (List.filter (fun m => MIN_GAMES ≤ m.games_played)
        [Matchup.mk 1 5 5, Matchup.mk 2 20 13]) =
      some ([((2 : Int), mkRat 13 20)], []) ∧
    ([((none : Option Int), mkRat 11 20)]).length = [["x", "y", "55.0%"]].length :=
  C3_sample_size_filter [Matchup.mk 1 5 5, Matchup.mk 2 20 13]
    ([((2 : Int), mkRat 13 20)], []) (mkTranslator []) [["x", "y", "55.0%"]]
    [((none : Option Int), mkRat 11 20)] (by decide) (by decide)

/-- C4: for every input list (hence every permutation of a record
multiset), the countered output is sorted non-increasing by score, the
counters output non-decreasing, and ties between equal scores keep the
original extraction order: the subsequence of any score class `q` in
the sorted output equals its subsequence in the bucketed list, which is
built in input order. -/
theorem C4_sorted_stable (data : List Matchup)
    (cdRaw csRaw countered counters : List (Int × ℚ)) (q : ℚ)
    (hb : odBucket data = some (cdRaw, csRaw))
    (h : odInitCounters data = some (countered, counters)) :
    List.Sorted scoreGE countered ∧ List.Sorted scoreLE counters ∧
    countered.filter (fun p => p.2 = q) = cdRaw.filter (fun p => p.2 = q) ∧
    counters.filter (fun p => p.2 = q) = csRaw.filter (fun p => p.2 = q) := by
  rw [odInitCounters, hb] at h
  simp only [Option.some.injEq, Prod.mk.injEq] at h
  obtain ⟨h1, h2⟩ := h
  subst h1; subst h2
  exact ⟨List.sorted_insertionSort scoreGE cdRaw,
    List.sorted_insertionSort scoreLE csRaw,
    filter_insertionSort scoreGE Prod.snd q scoreGE_of_eq cdRaw,
    filter_insertionSort scoreLE Prod.snd q scoreLE_of_eq csRaw⟩

/-- Witness for C4: scores 0.7, 0.9, 0.7 sort to 0.9, 0.7, 0.7 with the
two tied records kept in extraction order. -/
theorem C4_sorted_stable_witness :
    List.Sorted scoreGE
      [((2 : Int), mkRat 9 10), ((1 : Int), mkRat 7 10), ((3 : Int), mkRat 7 10)] ∧
    List.Sorted scoreLE ([] : List (Int × ℚ)) ∧
    List.filter (fun p => p.2 = mkRat 7 10)
        [((2 : Int), mkRat 9 10), ((1 : Int), mkRat 7 10), ((3 : Int), mkRat 7 10)] =
      List.filter (fun p => p.2 = mkRat 7 10)
        [((1 : Int), mkRat 7 10), ((2 : Int), mkRat 9 10), ((3 : Int), mkRat 7 10)] ∧
    List.filter (fun p => p.2 = mkRat 7 10) ([] : List (Int × ℚ)) =
      List.filter (fun p => p.2 = mkRat 7 10) ([] : List (Int × ℚ)) :=
  C4_sorted_stable [Matchup.mk 1 10 7, Matchup.mk 2 10 9, Matchup.mk 3 20 14]
    [((1 : Int), mkRat 7 10), ((2 : Int), mkRat 9 10), ((3 : Int), mkRat 7 10)] []
    [((2 : Int), mkRat 9 10), ((1 : Int), mkRat 7 10), ((3 : Int), mkRat 7 10)] []
    (mkRat 7 10) (by decide) (by decide)

/-- C5 counterexample: with a two-cell row in the second section, the
extraction does not fail — it returns a normal value whose counters
component still carries the record parsed from the intact first
section, so a partial record list is returned as a non-failing result
and no typed `MarkupError` exists. -/
theorem C5_counterexample :
    dbComputeCounters (mkTranslator [HeroEntry.mk 1 "Axe"])
      [[["a", "b", "c"], ["x", "Axe", "62.5%"]],
       [["a", "b", "c"], ["r", "s"]]] =
      some (([((none : Option Int), mkRat 5 8)], []), true) := by decide

/-- C5 amended: a data row with fewer than three cells makes
`_create_matchups_list` print an error message and return the empty
list for its own section, discarding the rows of that section; the call
still returns normally (no typed failure), and the records of the
other section are unaffected. -/
theorem C5_short_row_empties_section (trans : HeroTranslator)
    (header bad : List String) (pre post : List (List String))
    (hbad : bad.length < 3)
    (hpre : ∀ r ∈ pre, (rowRecord trans r).isSome = true) :
    createMatchupsList trans (header :: (pre ++ bad :: post)) = some ([], true) :=
  parseRows_short trans hbad post pre hpre

/-- Witness for the amended C5: a section with one good row followed by
a two-cell row parses to the empty list with the error flag set. -/
theorem C5_short_row_empties_section_witness :
    createMatchupsList (mkTranslator [HeroEntry.mk 1 "Axe"])
      [["a", "b", "c"], ["x", "Axe", "62.5%"], ["r", "s"]] = some ([], true) :=
  C5_short_row_empties_section (mkTranslator [HeroEntry.mk 1 "Axe"]) ["a", "b", "c"]
    ["r", "s"] [["x", "Axe", "62.5%"]] [] (by decide) (by decide)

/-- C6: for every well-formed two-section payload, extraction maps the
data rows of the first section (header skipped) to the counters output
and those of the second section to the countered output by position alone, each
row yielding the pair of the looked-up name and the percentage cell
parsed by stripping the trailing character and dividing by 100
(`rowRecord`). -/
theorem C6_section_order_and_percent (trans : HeroTranslator)
    (s0 s1 : List (List String))
    (h0 : ∀ row ∈ s0.drop 1, (rowRecord trans row).isSome = true)
    (h1 : ∀ row ∈ s1.drop 1, (rowRecord trans row).isSome = true) :
    dbComputeCounters trans [s0, s1] =
      some (((s0.drop 1).filterMap (rowRecord trans),
             (s1.drop 1).filterMap (rowRecord trans)), false) := by
  have e0 : createMatchupsList trans s0 =
      some ((s0.drop 1).filterMap (rowRecord trans), false) :=
    parseRows_ok trans (s0.drop 1) h0
  have e1 : createMatchupsList trans s1 =
      some ((s1.drop 1).filterMap (rowRecord trans), false) :=
    parseRows_ok trans (s1.drop 1) h1
  simp [dbComputeCounters, dbGetMatchups, e0, e1]

/-- Witness for C6: the concrete test of the claim — section 1 has the data
row `("Axe", "62.5%")` and section 2 only its header, so counters holds
the pair of `name_to_id` applied to `"Axe"` with score 5/8 = 0.625, and
countered is empty. -/
theorem C6_section_order_and_percent_witness :
    dbComputeCounters (mkTranslator [HeroEntry.mk 1 "Axe"])
      [[["a", "b", "c"], ["x", "Axe", "62.5%"]], [["a", "b", "c"]]] =
      some (([(name_to_id (mkTranslator [HeroEntry.mk 1 "Axe"]) "Axe", mkRat 5 8)], []),
        false) :=
  (C6_section_order_and_percent (mkTranslator [HeroEntry.mk 1 "Axe"])
    [["a", "b", "c"], ["x", "Axe", "62.5%"]] [["a", "b", "c"]]
    (by decide) (by decide)).trans (by decide)

/-- C7: computing counters for any hero id through the unimplemented
OD_SCRAPE variant runs the inherited `compute_counters` on the freshly
constructed parser (whose `__init__` set both member lists empty), with
a stub `_get_matchups` returning `None` and a no-op `_init_counters`;
the call returns two empty lists — an empty result value, never a
failure and never a fault (no code path in the stubs can raise). -/
theorem C7_unimplemented_variant_empty (hero_id : Int) :
    (odscrapeComputeCounters initParserState hero_id).1 = ([], []) := rfl

/-- C8 counterexample: with an empty lookup table the row name cannot
resolve, yet the extraction returns the record with an absent (`none`)
opponent id — the row is not dropped. -/
theorem C8_unresolved_name_counterexample :
    dbComputeCounters (mkTranslator [])
      [[["a", "b", "c"]], [["a", "b", "c"], ["x", "Phantom Lancer", "55.0%"]]] =
      some (([], [((none : Option Int), mkRat 11 20)]), false) := by decide

/-- C8 amended: every well-formed data row contributes exactly its
record, the pair of `name_to_id` applied to its name cell and its
parsed score, whether or not the name resolves: a row with an unknown
display name is kept with an absent opponent id rather than dropped,
and resolution failure is not fatal. -/
theorem C8_unresolved_kept (trans : HeroTranslator) (rows : List (List String))
    (row : List String) (rec : Option Int × ℚ)
    (h : ∀ r ∈ rows, (rowRecord trans r).isSome = true)
    (hrow : row ∈ rows) (hrec : rowRecord trans row = some rec) :
    parseRows trans rows = some (rows.filterMap (rowRecord trans), false) ∧
    rec ∈ rows.filterMap (rowRecord trans) :=
  ⟨parseRows_ok trans rows h, List.mem_filterMap.mpr ⟨row, hrow, hrec⟩⟩

/-- Witness for the amended C8: the unresolved row keeps its record
with a `none` id in the output. -/
theorem C8_unresolved_kept_witness :
    parseRows (mkTranslator []) [["x", "Phantom Lancer", "55.0%"]] =
      some (([["x", "Phantom Lancer", "55.0%"]]).filterMap (rowRecord (mkTranslator [])),
        false) ∧
    ((none : Option Int), mkRat 11 20) ∈
      ([["x", "Phantom Lancer", "55.0%"]]).filterMap (rowRecord (mkTranslator [])) :=
  C8_unresolved_kept (mkTranslator []) [["x", "Phantom Lancer", "55.0%"]]
    ["x", "Phantom Lancer", "55.0%"] ((none : Option Int), mkRat 11 20)
    (by decide) (by decide) (by decide)

/-- C9: the claim asserts case-insensitive name lookup, but the
membership test in `name_to_id` checks the raw `hero_name` against a
dict keyed by lowered names while the subsequent lookup lowers it, so
the canonical display name `"Axe"` fails to resolve although `"axe"`
succeeds — the intended lowering (present in the lookup expression and
in the dict construction) is missing from the membership test.  Names
and ids absent from the table do return an absent value, as claimed. -/
theorem C9_case_sensitivity_fault :
    name_to_id (mkTranslator [HeroEntry.mk 1 "Axe"]) "axe" = some 1 ∧
    name_to_id (mkTranslator [HeroEntry.mk 1 "Axe"]) "Axe" = none ∧
    name_to_id (mkTranslator [HeroEntry.mk 1 "Axe"]) "Slark" = none ∧
    id_to_name (mkTranslator [HeroEntry.mk 1 "Axe"]) 7 = none := by decide

/-- C10: the two lists produced by the classifier are disjoint — no
pair can be a member of both outputs of one result, because membership
in the countered list forces a score at least 0.60 and membership in
the counters list forces a score at most 0.40. -/
theorem C10_lists_disjoint (data : List Matchup)
    (countered counters : List (Int × ℚ)) (p : Int × ℚ)
    (h : odInitCounters data = some (countered, counters)) :
    ¬(p ∈ countered ∧ p ∈ counters) := by
  rw [odInitCounters] at h
  split at h
  · exact absurd h (by simp)
  rename_i cd0 cs0 hb
  simp only [Option.some.injEq, Prod.mk.injEq] at h
  obtain ⟨h1, h2⟩ := h
  subst h1; subst h2
  rintro ⟨hp1, hp2⟩
  obtain ⟨m1, _, _, hge, hpe1⟩ :=
    (odBucket_sound hb).1 p ((List.mem_insertionSort _).mp hp1)
  obtain ⟨m2, _, _, hle, hpe2⟩ :=
    (odBucket_sound hb).2 p ((List.mem_insertionSort _).mp hp2)
  have e1 : COUNTERED_THRESHOLD ≤ p.2 := by rw [hpe1]; exact hge
  have e2 : p.2 ≤ COUNTER_THRESHOLD := by rw [hpe2]; exact hle
  exact absurd (le_trans e1 e2) (not_le.mpr thresholds_lt)

/-- Witness for C10: the concrete result for two records with winrates
0.65 and 0.40 has disjoint lists. -/
theorem C10_lists_disjoint_witness :
    ¬(((1 : Int), mkRat 13 20) ∈ [((1 : Int), mkRat 13 20)] ∧
      ((1 : Int), mkRat 13 20) ∈ ([((2 : Int), mkRat 2 5)] : List (Int × ℚ))) :=
  C10_lists_disjoint [Matchup.mk 1 20 13, Matchup.mk 2 20 8]
    [((1 : Int), mkRat 13 20)] [((2 : Int), mkRat 2 5)]
    ((1 : Int), mkRat 13 20) (by decide)

end DotaMatchups
